import Mathlib

/-!
Verification development for the pull-request-reviewer core:
shallow embedding of the diff parser, the RAG components
(chunking, indexing ids, vector-store query, retriever) and the review
orchestrator, with theorems settling the specification's claims.

Modelling conventions:
* Python strings are Lean `String`; where character-level reasoning is
  needed (chunking) they are `List Char`.
* Python floats carrying distances are modelled as exact rationals `Rat`
  (the code only computes `1.0 - d`, which is exact).
* Calls into external collaborators (the `unidiff` PatchSet constructor,
  the ChromaDB backend, the OpenAI embeddings endpoint, the platform
  adapters, the crew execution) are parameters of type
  `... → Except String α`: an `Except.error` models the call raising.
-/

namespace PRReviewer

/-! ## Diff data model (src/data_preparation/diff_parser.py) -/

/-- The `CodeHunk` dataclass: a hunk of code changes.  Line sequences are
`(line_number, content)` pairs; `unidiff` line numbers may be `None`,
hence `Option Nat`. -/
structure CodeHunk where
  file_path : String
  old_start : Nat
  old_count : Nat
  new_start : Nat
  new_count : Nat
  added_lines : List (Option Nat × String)
  removed_lines : List (Option Nat × String)
  context_lines : List (Option Nat × String)
  deriving DecidableEq, Repr

/-- One line of a `unidiff` hunk, as exposed by the external library:
flags `is_added` / `is_removed` (a context line has both false),
source/target line numbers and the text. -/
structure PatchLine where
  is_added : Bool
  is_removed : Bool
  source_line_no : Option Nat
  target_line_no : Option Nat
  value : String
  deriving DecidableEq, Repr

/-- One hunk of a parsed `unidiff` PatchSet. -/
structure PatchHunk where
  source_start : Nat
  source_length : Nat
  target_start : Nat
  target_length : Nat
  lines : List PatchLine
  deriving DecidableEq, Repr

/-- One file of a parsed `unidiff` PatchSet. -/
structure PatchedFile where
  path : String
  hunks : List PatchHunk
  deriving DecidableEq, Repr

/-- The inner loop of `DiffParser.parse_patch` over one hunk: classify the
hunk's lines into added / removed / context (the `if line.is_added /
elif line.is_removed / else` cascade), preserving source order, and build
the `CodeHunk`. -/
def classify_hunk (file_path : String) (hunk : PatchHunk) : CodeHunk :=
  { file_path := file_path
    old_start := hunk.source_start
    old_count := hunk.source_length
    new_start := hunk.target_start
    new_count := hunk.target_length
    added_lines :=
      (hunk.lines.filter (fun l => l.is_added)).map
        (fun l => (l.target_line_no, l.value))
    removed_lines :=
      (hunk.lines.filter (fun l => !l.is_added && l.is_removed)).map
        (fun l => (l.source_line_no, l.value))
    context_lines :=
      (hunk.lines.filter (fun l => !l.is_added && !l.is_removed)).map
        (fun l => (l.target_line_no, l.value)) }

/-- Model of `DiffParser.parse_patch`.  `patchSet` is the external `unidiff`
`PatchSet` constructor; `.error` models it raising on malformed text.
The Python body is `if not patch_text: return []` followed by a
`try/except` that returns `[]` on any exception. -/
def parse_patch (patchSet : String → Except String (List PatchedFile))
    (patch_text : String) : List CodeHunk :=
  if patch_text = "" then []
  else
    match patchSet patch_text with
    | Except.error _ => []
    | Except.ok files =>
        (files.map (fun pf => pf.hunks.map (classify_hunk pf.path))).flatten

/-- Result of `DiffParser.get_change_summary` (a dict of ints in Python;
`net_change` may be negative, hence `Int`). -/
structure ChangeSummary where
  total_added : Nat
  total_removed : Nat
  files_changed : Nat
  net_change : Int
  deriving DecidableEq, Repr

/-- Model of `DiffParser.get_change_summary`: accumulate added/removed line counts
and the set of file paths over the hunks, then report the four statistics.
A pure function of its input (the Python code only reads the hunks). -/
def get_change_summary (hunks : List CodeHunk) : ChangeSummary :=
  let total_added := hunks.foldl (fun acc h => acc + h.added_lines.length) 0
  let total_removed := hunks.foldl (fun acc h => acc + h.removed_lines.length) 0
  let files_changed := hunks.foldl (fun s h => insert h.file_path s) (∅ : Finset String)
  { total_added := total_added
    total_removed := total_removed
    files_changed := files_changed.card
    net_change := (total_added : Int) - (total_removed : Int) }

end PRReviewer

namespace PRReviewer

/-! ## Symbol extraction (`DiffParser.extract_functions`) -/

/-- Python `sub in s` substring containment on character lists. -/
def pyInStr (sub : List Char) : List Char → Bool
  | [] => sub.isEmpty
  | c :: rest => sub.isPrefixOf (c :: rest) || pyInStr sub rest

/-- Python `s.split(sep)` for a single-character separator. -/
def splitOnChar (sep : Char) : List Char → List (List Char)
  | [] => [[]]
  | c :: rest =>
      if c = sep then [] :: splitOnChar sep rest
      else
        match splitOnChar sep rest with
        | [] => [[c]]
        | p :: ps => (c :: p) :: ps

/-- Python `file_path.split('.')[-1] if '.' in file_path else ''`. -/
def extOf (file_path : String) : String :=
  if pyInStr ['.'] file_path.data then
    ((splitOnChar '.' file_path.data).getLastD []).asString
  else ""

/-- The `lang_map` dict: known extensions to language keys (every language
it produces has an entry in the `patterns` dict). -/
def lang_map (ext : String) : Option String :=
  if ext = "py" then some "python"
  else if ext = "js" then some "javascript"
  else if ext = "ts" then some "javascript"
  else if ext = "java" then some "java"
  else if ext = "go" then some "go"
  else none

/-- The per-hunk `functions` set: fold over the texts of
`hunk.added_lines + hunk.context_lines`, adding the matcher's result when
it fires.  `matcher lang line` abstracts
`re.match(patterns[lang], line)` followed by taking the first non-None
group; the Python `set` is modelled as a duplicate-free list in first
insertion order (the claims only depend on membership). -/
def collect_matches (matcher : String → String → Option String)
    (lang : String) (lines : List String) : List String :=
  lines.foldl
    (fun fns line =>
      match matcher lang line with
      | some name => if name ∈ fns then fns else fns ++ [name]
      | none => fns) []

/-- The `functions_by_file` update: `if file_path not in d: d[file_path] = []`
then `d[file_path].extend(functions)` — Python dicts keep insertion
order, so the mapping is an association list with unique keys. -/
def extend_entry (m : List (String × List String)) (file : String)
    (fns : List String) : List (String × List String) :=
  if m.any (fun p => p.1 = file) then
    m.map (fun p => if p.1 = file then (p.1, p.2 ++ fns) else p)
  else m ++ [(file, fns)]

/-- The body of the `for hunk in hunks` loop of
`DiffParser.extract_functions`: look up the language from the file
extension, skip unknown extensions (`continue`), collect pattern matches
over added+context lines, and record them under the hunk's file path
only when non-empty (`if functions:`). -/
def extract_step (matcher : String → String → Option String)
    (acc : List (String × List String)) (hunk : CodeHunk) :
    List (String × List String) :=
  match lang_map (extOf hunk.file_path) with
  | none => acc
  | some language =>
      let functions :=
        collect_matches matcher language
          ((hunk.added_lines ++ hunk.context_lines).map Prod.snd)
      if functions = [] then acc
      else extend_entry acc hunk.file_path functions

/-- Model of `DiffParser.extract_functions`, parameterised by the abstract
regex matcher (the `re` engine is external to the model). -/
def extract_functions (matcher : String → String → Option String)
    (hunks : List CodeHunk) : List (String × List String) :=
  hunks.foldl (extract_step matcher) []

end PRReviewer

namespace PRReviewer

/-! ## Vector store and retriever (src/rag/vector_store.py, src/rag/retriever.py) -/

/-- Document metadata: a string-keyed mapping (ChromaDB metadata dicts). -/
abbrev Metadata : Type := List (String × String)

/-- The shape of a ChromaDB query result dict for a batch of query texts:
per query text, one inner list each of documents, metadatas and
distances.  Distances are exact rationals standing for the floats. -/
structure QueryResults where
  documents : List (List String)
  metadatas : List (List Metadata)
  distances : List (List Rat)
  deriving DecidableEq, Repr

/-- The dict `VectorStore.query` returns from its `except` branch:
`{"documents": [], "metadatas": [], "distances": []}`. -/
def emptyQueryResults : QueryResults :=
  { documents := [], metadatas := [], distances := [] }

/-- Model of `VectorStore.query`: forward the backend collection query; any backend
exception is caught and degraded to the empty result dict.  `backend`
abstracts `collection.query(...)` on the external ChromaDB client. -/
def VectorStore.query (backend : Except String QueryResults) : QueryResults :=
  match backend with
  | Except.ok results => results
  | Except.error _ => emptyQueryResults

/-- One formatted hit produced by `Retriever.retrieve`
(dict with content, metadata, distance, relevance_score). -/
structure RetrievalHit where
  content : String
  metadata : Metadata
  distance : Rat
  relevance_score : Rat
  deriving DecidableEq

/-- The result-formatting loop of `Retriever.retrieve`:
`for i, doc in enumerate(docs)` builds a hit whose metadata/distance fall
back to `{}` / `1.0` when the parallel lists are shorter, and whose
`relevance_score` is `1.0 - distance` (the same guarded index read). -/
def format_hits (docs : List String) (metadatas : List Metadata)
    (distances : List Rat) : List RetrievalHit :=
  (List.range docs.length).map fun i =>
    { content := docs.getD i ""
      metadata := metadatas.getD i default
      distance := distances.getD i 1
      relevance_score := 1 - distances.getD i 1 }

/-- Model of `Retriever.retrieve`: run the vector-store query (which already traps
backend failures), then format.  `if results and results.get('documents')`
skips formatting when the outer documents list is empty; indexing
`[...][0]` into an empty `metadatas`/`distances` would raise `IndexError`,
which the surrounding `try/except` turns into `[]`. -/
def Retriever.retrieve (backend : Except String QueryResults) :
    List RetrievalHit :=
  match (VectorStore.query backend).documents,
        (VectorStore.query backend).metadatas,
        (VectorStore.query backend).distances with
  | docs :: _, metadatas :: _, distances :: _ =>
      format_hits docs metadatas distances
  | _, _, _ => []

/-- Clamp `x` to `[lo, hi]`, as used by the specification's relevance formula. -/
def clamp (x lo hi : Rat) : Rat := max lo (min x hi)

end PRReviewer

namespace PRReviewer

/-! ## Document chunking and ids (src/rag/indexer.py) -/

/-- Python `str.strip()` whitespace set: space, `\t`, `\n`, `\r`,
`\x0b`, `\x0c`. -/
def pyWs (c : Char) : Bool :=
  c = ' ' || c = '\t' || c = '\n' || c = '\r' || c = '\x0b' || c = '\x0c'

/-- Python `s.strip()` on a character-list string. -/
def pyStrip (s : List Char) : List Char :=
  ((s.dropWhile pyWs).reverse.dropWhile pyWs).reverse

/-- Python `content.split('\n\n')`: split on non-overlapping occurrences
of the two-character separator, left to right; always returns at least
one (possibly empty) piece. -/
def splitPars : List Char → List (List Char)
  | [] => [[]]
  | '\n' :: '\n' :: rest => [] :: splitPars rest
  | c :: rest =>
      match splitPars rest with
      | [] => [[c]]
      | p :: ps => (c :: p) :: ps

/-- Join paragraphs (or chunks) with the `"\n\n"` separator:
the inverse direction of `splitPars`. -/
def joinPars : List (List Char) → List Char
  | [] => []
  | [p] => p
  | p :: ps => p ++ '\n' :: '\n' :: joinPars ps

/-- The accumulation loop of `KnowledgeBaseIndexer._chunk_document`:
`for para in paragraphs`, flushing `current_chunk.strip()` when adding
`para` would exceed `chunk_size` and the running chunk is non-empty;
otherwise append with the `"\n\n"` separator (or start the chunk);
a final non-empty running chunk is flushed stripped. -/
def chunkLoop (chunk_size : Nat) : List (List Char) → List Char → List (List Char)
  | [], current =>
      if current ≠ [] then [pyStrip current] else []
  | para :: rest, current =>
      if current.length + para.length > chunk_size ∧ current ≠ [] then
        pyStrip current :: chunkLoop chunk_size rest para
      else
        chunkLoop chunk_size rest
          (if current = [] then para else current ++ '\n' :: '\n' :: para)

/-- Model of `KnowledgeBaseIndexer._chunk_document content chunk_size`
(default `chunk_size=1000`): split on blank-line paragraph boundaries and
greedily accumulate. -/
def chunk_document (content : List Char) (chunk_size : Nat := 1000) :
    List (List Char) :=
  chunkLoop chunk_size (splitPars content) []

/-- Model of `KnowledgeBaseIndexer._generate_doc_id`: hash of
`f"{content}{metadata.get('source','')}"`.  `md5hex` abstracts the md5
hex digest (external hash function). -/
def generate_doc_id (md5hex : String → String) (content source : String) :
    String :=
  md5hex (content ++ source)

/-- The ids built in `index_markdown_files`:
`self._generate_doc_id(chunk, doc_metadata) + f"_{i}"` for
`i, chunk in enumerate(chunks)` — the chunk-index suffix is appended to
the content/source hash. -/
def chunk_ids (md5hex : String → String) (source : String)
    (chunks : List String) : List String :=
  (chunks.enum).map fun ic =>
    generate_doc_id md5hex ic.2 source ++ "_" ++ toString ic.1

/-- Modelled from the spec: the external similarity-search engine's
per-collection state required by the VectorStore contract (§4.3) — a
mapping from document id to document text, here an association list. -/
abbrev Collection : Type := List (String × String)

/-- Modelled from the spec: `upsert` of a single `(id, document)` pair —
"re-upserting an existing id replaces its content/metadata (idempotent)". -/
def upsert_one (store : Collection) (id doc : String) : Collection :=
  if store.any (fun p => p.1 = id) then
    store.map (fun p => if p.1 = id then (id, doc) else p)
  else store ++ [(id, doc)]

/-- Modelled from the spec: the one batch upsert call
`VectorStore.add_documents` makes per indexing run, over parallel
`documents`/`ids` lists. -/
def upsert_batch (store : Collection) (batch : List (String × String)) :
    Collection :=
  batch.foldl (fun s kv => upsert_one s kv.1 kv.2) store

/-- Modelled from the spec: `count(collection) -> integer`
(`VectorStore.count_documents`): the number of stored ids. -/
def store_count (store : Collection) : Nat :=
  ((store.map Prod.fst).dedup).length

/-- The set of ids present in a collection. -/
def store_ids (store : Collection) : Finset String :=
  (store.map Prod.fst).toFinset

end PRReviewer

namespace PRReviewer

/-! ## Embeddings (src/rag/embeddings.py) -/

/-- Model of `EmbeddingModel.embed_text` on a list input: blank texts are filtered
out (`[t for t in texts if t.strip()]`), an empty filtered list returns
`[]`, otherwise the external embeddings endpoint (`api`) is called on the
filtered list; its exceptions are re-raised (`Except` passthrough). -/
def embed_text (api : List String → Except String (List (List Rat)))
    (texts : List String) : Except String (List (List Rat)) :=
  let filtered := texts.filter (fun t => !(pyStrip t.data).isEmpty)
  if filtered = [] then Except.ok []
  else api filtered

end PRReviewer

namespace PRReviewer

/-! ## Review orchestrator (src/agents/crew_orchestrator.py) -/

/-- The `FileChange` dataclass of the platform adapters (datetimes elided). -/
structure FileChange where
  filename : String
  status : String
  additions : Nat
  deletions : Nat
  changes : Nat
  patch : Option String
  previous_filename : Option String
  deriving DecidableEq

/-- The `PullRequest` dataclass (timestamps as opaque strings). -/
structure PullRequest where
  platform : String
  id : String
  number : Nat
  title : String
  description : String
  author : String
  created_at : String
  updated_at : String
  state : String
  source_branch : String
  target_branch : String
  repository : String
  url : String
  files_changed : List FileChange
  commits_count : Nat
  additions : Nat
  deletions : Nat
  changed_files : Nat
  labels : List String
  language : Option String
  deriving DecidableEq

/-- The `context['pr_info']` dict built by `_prepare_pr_context`. -/
structure PRInfo where
  title : String
  description : String
  author : String
  platform : String
  language : Option String
  files_changed : Nat
  additions : Nat
  deletions : Nat
  deriving DecidableEq

/-- One `code_changes` entry: file, added/removed counts and the first
five added lines as a sample. -/
structure CodeChange where
  file : String
  added : Nat
  removed : Nat
  sample_changes : List (Option Nat × String)
  deriving DecidableEq

/-- The context dict assembled by `_prepare_pr_context`. -/
structure PRContext where
  pr_info : PRInfo
  change_summary : ChangeSummary
  code_changes : List CodeChange
  all_files : List String
  deriving DecidableEq

/-- Model of `ReviewCrew._prepare_pr_context`: parse every file's patch into hunks,
summarise, sample the first 10 hunks (first 5 added lines each) and
collect the file names. -/
def prepare_pr_context (patchSet : String → Except String (List PatchedFile))
    (pr : PullRequest) : PRContext :=
  let all_hunks :=
    (pr.files_changed.map (fun fc =>
      match fc.patch with
      | some p => parse_patch patchSet p
      | none => [])).flatten
  let change_summary := get_change_summary all_hunks
  let code_changes :=
    (all_hunks.take 10).map (fun h =>
      { file := h.file_path
        added := h.added_lines.length
        removed := h.removed_lines.length
        sample_changes := h.added_lines.take 5 })
  { pr_info :=
      { title := pr.title
        description := pr.description
        author := pr.author
        platform := pr.platform
        language := pr.language
        files_changed := pr.changed_files
        additions := pr.additions
        deletions := pr.deletions }
    change_summary := change_summary
    code_changes := code_changes
    all_files := pr.files_changed.map (fun f => f.filename) }

/-- Python `sub in s` substring test on `String`s. -/
def str_contains (s sub : String) : Bool := pyInStr sub.data s.data

/-- Model of `ReviewCrew._detect_platform`: substring checks on the URL, raising
`ValueError` (an `Except.error`) for unsupported platforms. -/
def detect_platform (url : String) : Except String String :=
  if str_contains url "github.com" then Except.ok "github"
  else if str_contains url "gitlab.com" then Except.ok "gitlab"
  else if str_contains url "bitbucket.org" then Except.ok "bitbucket"
  else Except.error ("Unsupported platform URL: " ++ url)

/-- A value of the `Dict[str, Any]` that `review_pull_request` returns. -/
inductive RVal where
  | bool (b : Bool)
  | str (s : String)
  | info (i : PRInfo)
  | summary (s : ChangeSummary)
  deriving DecidableEq

/-- The body of `review_pull_request`'s `try` block: detect the platform
when none (or an empty string) was supplied, reject unknown platforms
(`self.adapters.get(platform)` misses), fetch the pull request, prepare
the context and run the crew.  `fetch` abstracts
`adapter.fetch_pull_request`, `kickoff` abstracts building the four
agents/tasks from the PR and context and calling `crew.kickoff()`. -/
def review_attempt (patchSet : String → Except String (List PatchedFile))
    (fetch : String → String → Except String PullRequest)
    (kickoff : PullRequest → PRContext → Except String String)
    (pr_url : String) (platform? : Option String) :
    Except String (String × PRContext × String) := do
  let platform ←
    match platform? with
    | none => detect_platform pr_url
    | some p => if p = "" then detect_platform pr_url else pure p
  if platform = "github" ∨ platform = "gitlab" ∨ platform = "bitbucket" then do
    let pr ← fetch platform pr_url
    let context := prepare_pr_context patchSet pr
    let result ← kickoff pr context
    pure (platform, context, result)
  else Except.error ("Unsupported platform: " ++ platform)

/-- Model of `ReviewCrew.review_pull_request`: the whole body runs under
`try/except Exception`; success returns
`{'success': True, 'pr_info': ..., 'review': str(result), 'platform':
..., 'url': ...}`, any exception returns
`{'success': False, 'error': str(e), 'url': ...}`. -/
def review_pull_request (patchSet : String → Except String (List PatchedFile))
    (fetch : String → String → Except String PullRequest)
    (kickoff : PullRequest → PRContext → Except String String)
    (pr_url : String) (platform? : Option String) : List (String × RVal) :=
  match review_attempt patchSet fetch kickoff pr_url platform? with
  | Except.ok (platform, context, result) =>
      [("success", RVal.bool true),
       ("pr_info", RVal.info context.pr_info),
       ("review", RVal.str result),
       ("platform", RVal.str platform),
       ("url", RVal.str pr_url)]
  | Except.error e =>
      [("success", RVal.bool false),
       ("error", RVal.str e),
       ("url", RVal.str pr_url)]

end PRReviewer

namespace PRReviewer

/-! ## Helper lemmas -/

lemma foldl_add_map {α : Type} (f : α → Nat) :
    ∀ (l : List α) (n : Nat),
      l.foldl (fun acc h => acc + f h) n = n + (l.map f).sum := by
  intro l
  induction l with
  | nil => intro n; simp
  | cons a l ih => intro n; simp [ih, Nat.add_assoc]

lemma foldl_insert_map {α β : Type} [DecidableEq β] (f : α → β) :
    ∀ (l : List α) (s : Finset β),
      l.foldl (fun s h => insert (f h) s) s = s ∪ (l.map f).toFinset := by
  intro l
  induction l with
  | nil => intro s; simp
  | cons a l ih =>
      intro s
      simp only [List.foldl_cons, ih, List.map_cons, List.toFinset_cons,
        Finset.insert_union, Finset.union_insert]

end PRReviewer

namespace PRReviewer

/-! ## Claim theorems: diff summary and parser resilience -/

/-- C1: for every list of hunks, `get_change_summary` returns
`total_added` equal to the sum of the lengths of the added-line
sequences, `total_removed` equal to the sum of the lengths of the
removed-line sequences, `files_changed` equal to the number of distinct
file paths across all hunks, and `net_change = total_added -
total_removed`; as a Lean function it is pure by construction. -/
theorem get_change_summary_correct (hunks : List CodeHunk) :
    (get_change_summary hunks).total_added
        = (hunks.map (fun h => h.added_lines.length)).sum
    ∧ (get_change_summary hunks).total_removed
        = (hunks.map (fun h => h.removed_lines.length)).sum
    ∧ (get_change_summary hunks).files_changed
        = (hunks.map (fun h => h.file_path)).toFinset.card
    ∧ (get_change_summary hunks).net_change
        = ((get_change_summary hunks).total_added : Int)
          - ((get_change_summary hunks).total_removed : Int) := by
  refine ⟨?_, ?_, ?_, ?_⟩ <;>
    simp [get_change_summary, foldl_add_map, foldl_insert_map]

/-- C5: `parse_patch` is a total function of its input (the Python
`try/except` never lets an exception reach the caller — in the embedding
it returns a plain list, never an error), and on empty input or on input
where the underlying `unidiff` parse raises, it returns the empty hunk
sequence. -/
theorem parse_patch_never_raises
    (patchSet : String → Except String (List PatchedFile))
    (patch_text : String) :
    (patch_text = "" → parse_patch patchSet patch_text = [])
    ∧ (∀ e, patchSet patch_text = Except.error e →
        parse_patch patchSet patch_text = []) := by
  constructor
  · intro h; simp [parse_patch, h]
  · intro e he
    by_cases h : patch_text = ""
    · simp [parse_patch, h]
    · simp [parse_patch, h, he]

/-- Witness for C5: concrete empty input and a concrete malformed input
(a truncated hunk header, on which the external parser raises). -/
theorem parse_patch_never_raises_witness :
    parse_patch (fun _ => Except.error "no patch data") "@@ -1," = []
    ∧ parse_patch (fun _ => Except.ok []) "" = [] :=
  ⟨(parse_patch_never_raises (fun _ => Except.error "no patch data")
      "@@ -1,").2 "no patch data" rfl,
   (parse_patch_never_raises (fun _ => Except.ok []) "").1 rfl⟩

/-- C6: any backend failure degrades to an empty result at the retrieval
boundary: `VectorStore.query` returns the empty result dict instead of
propagating the exception, and `Retriever.retrieve` returns the empty
hit sequence (both are total Lean functions, so neither raises). -/
theorem query_and_retrieve_degrade_to_empty (e : String) :
    VectorStore.query (Except.error e) = emptyQueryResults
    ∧ Retriever.retrieve (Except.error e) = [] :=
  ⟨rfl, rfl⟩

end PRReviewer

namespace PRReviewer

/-! ## Claim theorems: retriever relevance (C2) -/

/-- Counterexample for C2: for a backend hit at distance 2 (within the
documented `[0, 2]` range), the code's relevance score is
`1 - 2 = -1`, not `clamp(1 - 2, 0, 1) = 0`, and it lies outside
`[0, 1]`. -/
theorem retrieve_relevance_unclamped_cex :
    (Retriever.retrieve (Except.ok
        { documents := [["doc"]], metadatas := [[[]]], distances := [[2]] })).map
        (fun h => h.relevance_score) = [-1]
    ∧ clamp (1 - 2) 0 1 = 0
    ∧ ¬ (0 ≤ (-1 : Rat) ∧ (-1 : Rat) ≤ 1) := by
  refine ⟨?_, by norm_num [clamp, min_def, max_def], by norm_num⟩
  have h2 : (1 : Rat) - 2 = -1 := by norm_num
  simp [Retriever.retrieve, VectorStore.query, format_hits, List.range_succ, h2]

/-- C2 (amended): every hit returned by `Retriever.retrieve` carries
`relevance_score = 1 - distance` with no clamping; the score agrees with
`clamp (1 - distance) 0 1` and lies in `[0, 1]` only when the distance
lies in `[0, 1]`. -/
theorem retrieve_relevance_eq_one_sub_distance
    (backend : Except String QueryResults) (hit : RetrievalHit)
    (h : hit ∈ Retriever.retrieve backend) :
    hit.relevance_score = 1 - hit.distance
    ∧ (0 ≤ hit.distance → hit.distance ≤ 1 →
        hit.relevance_score = clamp (1 - hit.distance) 0 1
        ∧ 0 ≤ hit.relevance_score ∧ hit.relevance_score ≤ 1) := by
  have hrel : hit.relevance_score = 1 - hit.distance := by
    rcases hq : VectorStore.query backend with ⟨docsL, msL, dsL⟩
    simp only [Retriever.retrieve, hq] at h
    cases docsL with
    | nil => simp at h
    | cons docs rest =>
        cases msL with
        | nil => simp at h
        | cons ms mrest =>
            cases dsL with
            | nil => simp at h
            | cons ds drest =>
                simp only [format_hits, List.mem_map, List.mem_range] at h
                obtain ⟨i, _, rfl⟩ := h
                rfl
  refine ⟨hrel, fun h0 h1 => ?_⟩
  have hle : 1 - hit.distance ≤ 1 := by linarith
  have hge : 0 ≤ 1 - hit.distance := by linarith
  refine ⟨?_, by rw [hrel]; exact hge, by rw [hrel]; exact hle⟩
  rw [hrel]
  unfold clamp
  rw [min_eq_left hle, max_eq_right hge]

/-- Witness for C2 (amended): a concrete backend result at distance 0,
whose formatted hit has relevance score 1. -/
theorem retrieve_relevance_eq_one_sub_distance_witness :
    (RetrievalHit.mk "x" [] 0 1).relevance_score
        = 1 - (RetrievalHit.mk "x" [] 0 1).distance
    ∧ (0 ≤ (RetrievalHit.mk "x" [] 0 1).distance →
        (RetrievalHit.mk "x" [] 0 1).distance ≤ 1 →
        (RetrievalHit.mk "x" [] 0 1).relevance_score
            = clamp (1 - (RetrievalHit.mk "x" [] 0 1).distance) 0 1
        ∧ 0 ≤ (RetrievalHit.mk "x" [] 0 1).relevance_score
        ∧ (RetrievalHit.mk "x" [] 0 1).relevance_score ≤ 1) :=
  retrieve_relevance_eq_one_sub_distance
    (Except.ok { documents := [["x"]], metadatas := [[[]]], distances := [[0]] })
    (RetrievalHit.mk "x" [] 0 1)
    (by
      have h1 : (1 : Rat) - 0 = 1 := by norm_num
      simp [Retriever.retrieve, VectorStore.query, format_hits,
        List.range_succ, h1])

end PRReviewer

namespace PRReviewer

/-! ## Claim theorems: embeddings (C9) and document ids (C3) -/

/-- Counterexample for C9: with an embedding endpoint that returns
exactly one vector per text it receives, `embed_text` on the two-element
input `["a", ""]` returns a single vector — the blank text is filtered
out before the call, so the output is not one vector per input text. -/
theorem embed_text_drops_blank_inputs_cex :
    embed_text (fun ts => Except.ok (ts.map (fun _ => ([0] : List Rat)))) ["a", ""]
      = Except.ok [[0]]
    ∧ ¬ ([[(0 : Rat)]].length = (["a", ""] : List String).length) := by
  constructor
  · rfl
  · simp

/-- C9 (amended): `embed_text` returns one vector per non-blank input
text (texts whose `strip()` is empty are dropped before the endpoint
call, which preserves the order of the remaining texts); the empty input
list yields the empty output. -/
theorem embed_text_one_per_nonblank
    (api : List String → Except String (List (List Rat)))
    (texts : List String) (out : List (List Rat))
    (hapi : ∀ ts vs, api ts = Except.ok vs → vs.length = ts.length)
    (h : embed_text api texts = Except.ok out) :
    out.length = (texts.filter (fun t => !(pyStrip t.data).isEmpty)).length
    ∧ (texts = [] → out = []) := by
  simp only [embed_text] at h
  split at h
  next hf =>
    injection h with h
    subst h
    exact ⟨by simp [hf], fun _ => rfl⟩
  next hf =>
    refine ⟨hapi _ _ h, fun ht => ?_⟩
    subst ht
    simp at hf

end PRReviewer

namespace PRReviewer

/-- Witness for C9 (amended): on the concrete input `["a", ""]` with a
one-vector-per-text endpoint, the output length equals the number of
non-blank inputs (one), and the inputs are not the empty list. -/
theorem embed_text_one_per_nonblank_witness :
    ([[(0 : Rat)]] : List (List Rat)).length
        = ((["a", ""] : List String).filter
            (fun t => !(pyStrip t.data).isEmpty)).length
    ∧ ((["a", ""] : List String) = [] → ([[(0 : Rat)]] : List (List Rat)) = []) :=
  embed_text_one_per_nonblank
    (fun ts => Except.ok (ts.map (fun _ => ([0] : List Rat))))
    ["a", ""] [[0]]
    (fun ts vs hv => by injection hv with hv; subst hv; simp)
    rfl

/-- Counterexample for C3: two chunks of the same document with identical
content `"A"` and identical source `"s"` receive distinct identifiers
(the code appends the chunk index to the content/source hash), so the
identifier is not a pure function of (chunk content, source) alone. -/
theorem doc_id_depends_on_chunk_index_cex :
    chunk_ids (fun s => s) "s" ["A", "A"] = ["As_0", "As_1"]
    ∧ ("As_0" : String) ≠ "As_1" := by
  constructor
  · rfl
  · decide

lemma store_ids_upsert_one (store : Collection) (idv doc : String) :
    store_ids (upsert_one store idv doc) = store_ids store ∪ {idv} := by
  unfold upsert_one store_ids
  split
  next hany =>
    have hmem : idv ∈ store.map Prod.fst := by
      rcases List.any_eq_true.mp hany with ⟨p, hp, hpe⟩
      exact List.mem_map.mpr ⟨p, hp, of_decide_eq_true hpe⟩
    have hfst : (store.map (fun p => if p.1 = idv then (idv, doc) else p)).map
        Prod.fst = store.map Prod.fst := by
      rw [List.map_map]
      apply List.map_congr_left
      intro p _
      by_cases h : p.1 = idv
      · simp [h]
      · simp [h]
    rw [hfst]
    have hin : idv ∈ (store.map Prod.fst).toFinset := List.mem_toFinset.mpr hmem
    exact (Finset.union_eq_left.mpr (Finset.singleton_subset_iff.mpr hin)).symm
  next =>
    simp [List.toFinset_append, Finset.union_comm]

lemma store_ids_upsert_batch (batch : List (String × String)) :
    ∀ store : Collection,
      store_ids (upsert_batch store batch)
        = store_ids store ∪ (batch.map Prod.fst).toFinset := by
  induction batch with
  | nil => intro store; simp [upsert_batch]
  | cons kv rest ih =>
      intro store
      have hstep : upsert_batch store (kv :: rest)
          = upsert_batch (upsert_one store kv.1 kv.2) rest := rfl
      rw [hstep, ih, store_ids_upsert_one]
      rw [List.map_cons, List.toFinset_cons, Finset.insert_eq,
        Finset.union_assoc]

lemma store_count_eq_card (store : Collection) :
    store_count store = (store_ids store).card := by
  simp [store_count, store_ids, List.card_toFinset]

/-- C3 (amended): a chunk's identifier is a pure function of (chunk
content, source, chunk index); since chunk contents and indices are
themselves determined by the document content, re-indexing an identical
document produces the identical id list, and under the VectorStore
contract's upsert semantics (spec §4.3; the concrete store is an external
collaborator) the second indexing pass leaves `count(collection)`
unchanged. -/
theorem reindex_identical_document_count_unchanged
    (md5hex : String → String) (source : String) (content : List Char)
    (store : Collection) :
    store_count
      (upsert_batch
        (upsert_batch store
          ((chunk_ids md5hex source
              ((chunk_document content).map List.asString)).zip
            ((chunk_document content).map List.asString)))
        ((chunk_ids md5hex source
            ((chunk_document content).map List.asString)).zip
          ((chunk_document content).map List.asString)))
    = store_count
        (upsert_batch store
          ((chunk_ids md5hex source
              ((chunk_document content).map List.asString)).zip
            ((chunk_document content).map List.asString))) := by
  generalize ((chunk_ids md5hex source
      ((chunk_document content).map List.asString)).zip
    ((chunk_document content).map List.asString)) = batch
  rw [store_count_eq_card, store_count_eq_card,
    store_ids_upsert_batch, store_ids_upsert_batch,
    Finset.union_assoc, Finset.union_self]

end PRReviewer

namespace PRReviewer

/-! ## Claim theorems: symbol extraction (C8) -/

/-- Soundness of one recorded symbol: some hunk of the input owns the
file, the file's extension maps to a known language, and the matcher
fired on one of that hunk's added or context lines. -/
def SoundSymbol (matcher : String → String → Option String)
    (hunks : List CodeHunk) (file name : String) : Prop :=
  ∃ hunk ∈ hunks, hunk.file_path = file ∧
    ∃ lang, lang_map (extOf file) = some lang ∧
      ∃ line ∈ (hunk.added_lines ++ hunk.context_lines).map Prod.snd,
        matcher lang line = some name

lemma mem_collect_matches_aux (matcher : String → String → Option String)
    (lang : String) :
    ∀ (lines : List String) (acc : List String) (name : String),
      name ∈ lines.foldl
        (fun fns line =>
          match matcher lang line with
          | some n => if n ∈ fns then fns else fns ++ [n]
          | none => fns) acc →
      name ∈ acc ∨ ∃ line ∈ lines, matcher lang line = some name := by
  intro lines
  induction lines with
  | nil => intro acc name h; exact Or.inl h
  | cons l rest ih =>
      intro acc name h
      simp only [List.foldl_cons] at h
      cases hm : matcher lang l with
      | none =>
          simp only [hm] at h
          rcases ih _ _ h with hacc | ⟨line, hl, hml⟩
          · exact Or.inl hacc
          · exact Or.inr ⟨line, List.mem_cons_of_mem _ hl, hml⟩
      | some n =>
          simp only [hm] at h
          by_cases hn : n ∈ acc
          · rw [if_pos hn] at h
            rcases ih _ _ h with hacc | ⟨line, hl, hml⟩
            · exact Or.inl hacc
            · exact Or.inr ⟨line, List.mem_cons_of_mem _ hl, hml⟩
          · rw [if_neg hn] at h
            rcases ih _ _ h with hacc | ⟨line, hl, hml⟩
            · rcases List.mem_append.mp hacc with h1 | h2
              · exact Or.inl h1
              · rcases List.mem_singleton.mp h2 with rfl
                exact Or.inr ⟨l, List.mem_cons_self _ _, hm⟩
            · exact Or.inr ⟨line, List.mem_cons_of_mem _ hl, hml⟩

lemma mem_collect_matches {matcher : String → String → Option String}
    {lang name : String} {lines : List String}
    (h : name ∈ collect_matches matcher lang lines) :
    ∃ line ∈ lines, matcher lang line = some name := by
  rcases mem_collect_matches_aux matcher lang lines [] name h with hacc | hline
  · simp at hacc
  · exact hline

lemma mem_extend_entry {m : List (String × List String)}
    {file file' : String} {fns syms' : List String}
    (h : (file', syms') ∈ extend_entry m file fns) :
    (file', syms') ∈ m
    ∨ (file' = file
        ∧ (syms' = fns ∨ ∃ old, (file, old) ∈ m ∧ syms' = old ++ fns)) := by
  unfold extend_entry at h
  split at h
  next =>
    rcases List.mem_map.mp h with ⟨p, hp, heq⟩
    by_cases hpf : p.1 = file
    · rw [if_pos hpf] at heq
      have h1 : p.1 = file' := congrArg Prod.fst heq
      have h2 : p.2 ++ fns = syms' := congrArg Prod.snd heq
      right
      refine ⟨by rw [← h1, hpf], Or.inr ⟨p.2, ?_, h2.symm⟩⟩
      have : p = (file, p.2) := by
        rw [Prod.ext_iff]; exact ⟨hpf, rfl⟩
      rw [← this]; exact hp
    · rw [if_neg hpf] at heq
      left; rw [← heq]; exact hp
  next =>
    rcases List.mem_append.mp h with h1 | h2
    · exact Or.inl h1
    · rcases List.mem_singleton.mp h2 with heq
      have h1 : file = file' := congrArg Prod.fst heq.symm
      have h2 : fns = syms' := congrArg Prod.snd heq.symm
      exact Or.inr ⟨h1.symm, Or.inl h2.symm⟩

lemma extract_step_invariant (matcher : String → String → Option String)
    (hunks : List CodeHunk) (hunk : CodeHunk) (hhunk : hunk ∈ hunks)
    (acc : List (String × List String))
    (hacc : ∀ file syms, (file, syms) ∈ acc →
      syms ≠ [] ∧ ∀ name ∈ syms, SoundSymbol matcher hunks file name) :
    ∀ file syms, (file, syms) ∈ extract_step matcher acc hunk →
      syms ≠ [] ∧ ∀ name ∈ syms, SoundSymbol matcher hunks file name := by
  intro file syms h
  unfold extract_step at h
  cases hlang : lang_map (extOf hunk.file_path) with
  | none => rw [hlang] at h; exact hacc _ _ h
  | some lang =>
      rw [hlang] at h
      simp only at h
      split at h
      · exact hacc _ _ h
      next hne =>
        have hsound : ∀ name ∈ collect_matches matcher lang
            ((hunk.added_lines ++ hunk.context_lines).map Prod.snd),
            SoundSymbol matcher hunks hunk.file_path name := by
          intro name hn
          rcases mem_collect_matches hn with ⟨line, hl, hml⟩
          exact ⟨hunk, hhunk, rfl, lang, hlang, line, hl, hml⟩
        rcases mem_extend_entry h with hold | ⟨rfl, hnew⟩
        · exact hacc _ _ hold
        · rcases hnew with rfl | ⟨old, hmem, rfl⟩
          · exact ⟨hne, hsound⟩
          · rcases hacc _ _ hmem with ⟨holdne, holdsound⟩
            refine ⟨by simp [holdne], ?_⟩
            intro name hn
            rcases List.mem_append.mp hn with h1 | h2
            · exact holdsound name h1
            · exact hsound name h2

lemma extract_functions_aux (matcher : String → String → Option String)
    (hunks : List CodeHunk) :
    ∀ (rest : List CodeHunk) (acc : List (String × List String)),
      (∀ h ∈ rest, h ∈ hunks) →
      (∀ file syms, (file, syms) ∈ acc →
        syms ≠ [] ∧ ∀ name ∈ syms, SoundSymbol matcher hunks file name) →
      ∀ file syms, (file, syms) ∈ rest.foldl (extract_step matcher) acc →
        syms ≠ [] ∧ ∀ name ∈ syms, SoundSymbol matcher hunks file name := by
  intro rest
  induction rest with
  | nil => intro acc _ hacc file syms h; exact hacc _ _ h
  | cons hk rest ih =>
      intro acc hsub hacc file syms h
      simp only [List.foldl_cons] at h
      refine ih _ (fun x hx => hsub x (List.mem_cons_of_mem _ hx)) ?_ _ _ h
      exact extract_step_invariant matcher hunks hk
        (hsub hk (List.mem_cons_self _ _)) acc hacc

/-- C8: every symbol recorded by `extract_functions` for a file was
matched against the added and context lines of a hunk of that same file
(removed lines are never consulted), via the language determined by the
file's extension; a file whose extension has no known language never
appears in the result; and every recorded file carries a non-empty
symbol collection (files with no matches are absent). -/
theorem extract_functions_sound (matcher : String → String → Option String)
    (hunks : List CodeHunk) :
    (∀ file syms, (file, syms) ∈ extract_functions matcher hunks →
      syms ≠ [] ∧ ∀ name ∈ syms, SoundSymbol matcher hunks file name)
    ∧ (∀ file, lang_map (extOf file) = none →
        ∀ syms, (file, syms) ∉ extract_functions matcher hunks) := by
  have main := extract_functions_aux matcher hunks hunks []
    (fun _ hx => hx) (by intro file syms h; simp at h)
  refine ⟨main, ?_⟩
  intro file hnone syms hmem
  rcases main file syms hmem with ⟨hne, hsound⟩
  rcases List.exists_mem_of_ne_nil _ hne with ⟨name, hname⟩
  rcases hsound name hname with ⟨hunk, _, _, lang, hlang, _⟩
  rw [hnone] at hlang
  exact Option.noConfusion hlang

/-- Witness for C8: a text file (unknown extension) never contributes an
entry, even with a matcher that fires on every line; and for a concrete
Python hunk the recorded symbol is sound. -/
theorem extract_functions_sound_witness :
    ("README.txt", ["f"]) ∉ extract_functions (fun _ _ => some "f")
      [⟨"README.txt", 1, 1, 1, 1, [(some 1, "x")], [], []⟩] :=
  (extract_functions_sound (fun _ _ => some "f")
    [⟨"README.txt", 1, 1, 1, 1, [(some 1, "x")], [], []⟩]).2
    "README.txt" (by decide) ["f"]

end PRReviewer

namespace PRReviewer

/-! ## Claim theorems: review results (C7, C10) -/

/-- Whether any entry of a review-result dict carries a change summary
value. -/
def mentions_summary (r : List (String × RVal)) : Bool :=
  r.any (fun p =>
    match p.2 with
    | RVal.summary _ => true
    | _ => false)

/-- A concrete pull request with no file changes, used to exercise the
orchestrator on concrete runs. -/
def testPR : PullRequest :=
  { platform := "github", id := "1", number := 1, title := "T",
    description := "D", author := "A", created_at := "", updated_at := "",
    state := "open", source_branch := "b", target_branch := "main",
    repository := "o/r", url := "https://github.com/o/r/pull/1",
    files_changed := [], commits_count := 1, additions := 0, deletions := 0,
    changed_files := 0, labels := [], language := none }

/-- Counterexample for C7: on a successful concrete run the result dict
contains no change-summary entry at all (the claim says the success
result reports the Synthesize output together with the original change
summary), and on a run whose crew execution fails the result is exactly
the three-key dict `success`/`error`/`url` — it neither names the failed
stage nor retains any completed stage output. -/
theorem review_result_summary_cex :
    mentions_summary (review_pull_request (fun _ => Except.ok [])
        (fun _ _ => Except.ok testPR) (fun _ _ => Except.ok "REVIEW")
        "https://github.com/o/r/pull/1" none) = false
    ∧ review_pull_request (fun _ => Except.ok [])
        (fun _ _ => Except.ok testPR) (fun _ _ => Except.error "boom")
        "https://github.com/o/r/pull/1" none
      = [("success", RVal.bool false), ("error", RVal.str "boom"),
         ("url", RVal.str "https://github.com/o/r/pull/1")] := by
  exact ⟨by decide, by decide⟩

/-- C7 (amended): a successful review reports the crew's synthesized
output (under `review`) together with the PR info and the input URL, but
not the change summary; a failed review reports only `success = False`,
the error text and the URL — the failed stage is not named and no
completed stage outputs are retained. -/
theorem review_result_reports
    (patchSet : String → Except String (List PatchedFile))
    (fetch : String → String → Except String PullRequest)
    (kickoff : PullRequest → PRContext → Except String String)
    (pr_url : String) (platform? : Option String) :
    (("success", RVal.bool true)
        ∈ review_pull_request patchSet fetch kickoff pr_url platform? →
      (∃ s, ("review", RVal.str s)
          ∈ review_pull_request patchSet fetch kickoff pr_url platform?)
      ∧ (∃ i, ("pr_info", RVal.info i)
          ∈ review_pull_request patchSet fetch kickoff pr_url platform?)
      ∧ ("url", RVal.str pr_url)
          ∈ review_pull_request patchSet fetch kickoff pr_url platform?
      ∧ mentions_summary
          (review_pull_request patchSet fetch kickoff pr_url platform?) = false)
    ∧ (("success", RVal.bool false)
        ∈ review_pull_request patchSet fetch kickoff pr_url platform? →
      ∃ e, review_pull_request patchSet fetch kickoff pr_url platform?
        = [("success", RVal.bool false), ("error", RVal.str e),
           ("url", RVal.str pr_url)]) := by
  cases hr : review_attempt patchSet fetch kickoff pr_url platform? with
  | ok v =>
      obtain ⟨platform, context, result⟩ := v
      constructor
      · intro _
        refine ⟨⟨result, ?_⟩, ⟨context.pr_info, ?_⟩, ?_, ?_⟩ <;>
          simp [review_pull_request, hr, mentions_summary]
      · intro hfalse
        simp [review_pull_request, hr] at hfalse
  | error e =>
      constructor
      · intro htrue
        simp [review_pull_request, hr] at htrue
      · intro _
        exact ⟨e, by simp [review_pull_request, hr]⟩

/-- Witness for C7 (amended): on a concrete run whose crew execution
fails, the result is the bare three-key failure dict. -/
theorem review_result_reports_witness :
    ∃ e, review_pull_request (fun _ => Except.ok [])
        (fun _ _ => Except.ok testPR)
        (fun _ _ => Except.error "kickoff failed")
        "https://github.com/o/r/pull/2" none
      = [("success", RVal.bool false), ("error", RVal.str e),
         ("url", RVal.str "https://github.com/o/r/pull/2")] :=
  (review_result_reports (fun _ => Except.ok [])
    (fun _ _ => Except.ok testPR)
    (fun _ _ => Except.error "kickoff failed")
    "https://github.com/o/r/pull/2" none).2 (by decide)

/-- C10: `review_pull_request` is a total function (the Python body is one
`try/except Exception`, so in the embedding it always returns a dict): the
result always contains a boolean `success` entry, and whenever that entry
is `False` the result also contains an `error` description and the
original `url`. -/
theorem review_pull_request_success_shape
    (patchSet : String → Except String (List PatchedFile))
    (fetch : String → String → Except String PullRequest)
    (kickoff : PullRequest → PRContext → Except String String)
    (pr_url : String) (platform? : Option String) :
    (∃ b, ("success", RVal.bool b)
        ∈ review_pull_request patchSet fetch kickoff pr_url platform?)
    ∧ (("success", RVal.bool false)
        ∈ review_pull_request patchSet fetch kickoff pr_url platform? →
      (∃ e, ("error", RVal.str e)
          ∈ review_pull_request patchSet fetch kickoff pr_url platform?)
      ∧ ("url", RVal.str pr_url)
          ∈ review_pull_request patchSet fetch kickoff pr_url platform?) := by
  cases hr : review_attempt patchSet fetch kickoff pr_url platform? with
  | ok v =>
      obtain ⟨platform, context, result⟩ := v
      constructor
      · exact ⟨true, by simp [review_pull_request, hr]⟩
      · intro hfalse
        simp [review_pull_request, hr] at hfalse
  | error e =>
      constructor
      · exact ⟨false, by simp [review_pull_request, hr]⟩
      · intro _
        exact ⟨⟨e, by simp [review_pull_request, hr]⟩,
          by simp [review_pull_request, hr]⟩

/-- Witness for C10: a concrete run with an unsupported URL and no
platform argument fails inside the guarded body, and the result carries
the error and the URL. -/
theorem review_pull_request_success_shape_witness :
    (∃ e, ("error", RVal.str e)
        ∈ review_pull_request (fun _ => Except.ok [])
            (fun _ _ => Except.ok testPR) (fun _ _ => Except.ok "R")
            "https://example.org/x" none)
    ∧ ("url", RVal.str "https://example.org/x")
        ∈ review_pull_request (fun _ => Except.ok [])
            (fun _ _ => Except.ok testPR) (fun _ _ => Except.ok "R")
            "https://example.org/x" none :=
  (review_pull_request_success_shape (fun _ => Except.ok [])
    (fun _ _ => Except.ok testPR) (fun _ _ => Except.ok "R")
    "https://example.org/x" none).2 (by decide)

end PRReviewer

namespace PRReviewer

/-! ## Claim theorems: document chunking (C4) -/

lemma pyStrip_length_le (s : List Char) : (pyStrip s).length ≤ s.length := by
  unfold pyStrip
  rw [List.length_reverse]
  calc ((s.dropWhile pyWs).reverse.dropWhile pyWs).length
      ≤ (s.dropWhile pyWs).reverse.length :=
        (List.dropWhile_suffix pyWs).length_le
    _ = (s.dropWhile pyWs).length := List.length_reverse _
    _ ≤ s.length := (List.dropWhile_suffix pyWs).length_le

lemma dropWhile_front_of_pyStrip {s : List Char} (h : pyStrip s = s) :
    s.dropWhile pyWs = s := by
  have h1 : (pyStrip s).length ≤ (s.dropWhile pyWs).length := by
    unfold pyStrip
    rw [List.length_reverse]
    calc ((s.dropWhile pyWs).reverse.dropWhile pyWs).length
        ≤ (s.dropWhile pyWs).reverse.length :=
          (List.dropWhile_suffix pyWs).length_le
      _ = (s.dropWhile pyWs).length := List.length_reverse _
  rw [h] at h1
  exact (List.dropWhile_suffix pyWs).eq_of_length
    (le_antisymm (List.dropWhile_suffix pyWs).length_le h1)

lemma dropWhile_back_of_pyStrip {s : List Char} (h : pyStrip s = s) :
    s.reverse.dropWhile pyWs = s.reverse := by
  have hfront := dropWhile_front_of_pyStrip h
  unfold pyStrip at h
  rw [hfront] at h
  have h2 := congrArg List.reverse h
  rwa [List.reverse_reverse] at h2

lemma pyStrip_eq_self_of_drops {s : List Char}
    (h1 : s.dropWhile pyWs = s) (h2 : s.reverse.dropWhile pyWs = s.reverse) :
    pyStrip s = s := by
  unfold pyStrip
  rw [h1, h2, List.reverse_reverse]

lemma head_not_ws_of_dropWhile {c : Char} {t : List Char}
    (h : (c :: t).dropWhile pyWs = c :: t) : pyWs c = false := by
  by_cases hc : pyWs c = true
  · rw [List.dropWhile_cons, if_pos hc] at h
    have hlen := congrArg List.length h
    have hle := (List.dropWhile_suffix (l := t) pyWs).length_le
    simp at hlen
    omega
  · simpa using hc

lemma dropWhile_cons_of_not_ws {c : Char} {t : List Char}
    (hc : pyWs c = false) : (c :: t).dropWhile pyWs = c :: t := by
  rw [List.dropWhile_cons, if_neg (by simp [hc])]

/-- Appending two clean non-empty strings around the paragraph separator
yields a clean string: stripping is the identity on the result. -/
lemma pyStrip_append_sep {cur p : List Char} (hcur : cur ≠ [])
    (hcs : pyStrip cur = cur) (hp : p ≠ []) (hps : pyStrip p = p) :
    pyStrip (cur ++ '\n' :: '\n' :: p) = cur ++ '\n' :: '\n' :: p := by
  obtain ⟨c, t, rfl⟩ : ∃ c t, cur = c :: t := by
    cases cur with
    | nil => exact absurd rfl hcur
    | cons c t => exact ⟨c, t, rfl⟩
  have hc : pyWs c = false :=
    head_not_ws_of_dropWhile (dropWhile_front_of_pyStrip hcs)
  obtain ⟨d, u, hrev⟩ : ∃ d u, p.reverse = d :: u := by
    cases hpr : p.reverse with
    | nil => exact absurd (by simpa using congrArg List.reverse hpr) hp
    | cons d u => exact ⟨d, u, rfl⟩
  have hd : pyWs d = false := by
    have hback := dropWhile_back_of_pyStrip hps
    rw [hrev] at hback
    exact head_not_ws_of_dropWhile hback
  apply pyStrip_eq_self_of_drops
  · exact dropWhile_cons_of_not_ws hc
  · have hsh : ((c :: t) ++ '\n' :: '\n' :: p).reverse
        = d :: (u ++ ['\n', '\n'] ++ (c :: t).reverse) := by
      rw [List.reverse_append]
      have hsep : ('\n' :: '\n' :: p).reverse = p.reverse ++ ['\n', '\n'] := by
        simp
      rw [hsep, hrev]
      simp
    rw [hsh]
    exact dropWhile_cons_of_not_ws hd

lemma splitPars_ne_nil (s : List Char) : splitPars s ≠ [] := by
  induction s using splitPars.induct with
  | case1 => simp [splitPars.eq_1]
  | case2 rest ih => simp [splitPars.eq_2]
  | case3 c rest hne hsp ih => exact absurd hsp ih
  | case4 c rest hne p ps hsp ih =>
      rw [splitPars.eq_3 c rest hne, hsp]
      simp

lemma joinPars_cons_ne (p : List Char) {ps : List (List Char)} (h : ps ≠ []) :
    joinPars (p :: ps) = p ++ '\n' :: '\n' :: joinPars ps := by
  cases ps with
  | nil => exact absurd rfl h
  | cons q qs => rfl

lemma joinPars_splitPars (s : List Char) : joinPars (splitPars s) = s := by
  induction s using splitPars.induct with
  | case1 => rfl
  | case2 rest ih =>
      rw [splitPars.eq_2, joinPars_cons_ne [] (splitPars_ne_nil rest), ih]
      rfl
  | case3 c rest hne hsp ih => exact absurd hsp (splitPars_ne_nil rest)
  | case4 c rest hne p ps hsp ih =>
      rw [splitPars.eq_3 c rest hne, hsp]
      rw [hsp] at ih
      cases ps with
      | nil =>
          show c :: p = c :: rest
          rw [show joinPars [p] = p from rfl] at ih
          rw [ih]
      | cons q qs =>
          rw [joinPars_cons_ne (c :: p) (by simp)]
          rw [joinPars_cons_ne p (by simp)] at ih
          rw [← ih]
          rfl

lemma chunkLoop_nil (n : Nat) (cur : List Char) :
    chunkLoop n [] cur = if cur ≠ [] then [pyStrip cur] else [] := rfl

lemma chunkLoop_cons (n : Nat) (para : List Char) (rest : List (List Char))
    (cur : List Char) :
    chunkLoop n (para :: rest) cur =
      if cur.length + para.length > n ∧ cur ≠ [] then
        pyStrip cur :: chunkLoop n rest para
      else
        chunkLoop n rest
          (if cur = [] then para else cur ++ '\n' :: '\n' :: para) := rfl

lemma chunkLoop_ne_nil (n : Nat) :
    ∀ (paras : List (List Char)) (cur : List Char), cur ≠ [] →
      chunkLoop n paras cur ≠ [] := by
  intro paras
  induction paras with
  | nil => intro cur h; rw [chunkLoop_nil, if_pos h]; simp
  | cons para rest ih =>
      intro cur h
      rw [chunkLoop_cons]
      by_cases hcond : cur.length + para.length > n ∧ cur ≠ []
      · rw [if_pos hcond]; simp
      · rw [if_neg hcond, if_neg h]
        exact ih _ (fun hc => h (List.append_eq_nil.mp hc).1)

lemma chunkLoop_join (n : Nat) :
    ∀ (paras : List (List Char)) (cur : List Char),
      (∀ p ∈ paras, p ≠ [] ∧ pyStrip p = p) →
      pyStrip cur = cur →
      (cur = [] → joinPars (chunkLoop n paras cur) = joinPars paras)
      ∧ (cur ≠ [] →
          joinPars (chunkLoop n paras cur) = joinPars (cur :: paras)) := by
  intro paras
  induction paras with
  | nil =>
      intro cur _ hcs
      constructor
      · intro h; subst h; rfl
      · intro h
        rw [chunkLoop_nil, if_pos h, hcs]
  | cons para rest ih =>
      intro cur hps hcs
      have hpara := hps para (List.mem_cons_self _ _)
      have hrest : ∀ p ∈ rest, p ≠ [] ∧ pyStrip p = p :=
        fun p hp => hps p (List.mem_cons_of_mem _ hp)
      constructor
      · intro h; subst h
        rw [chunkLoop_cons, if_neg (by simp), if_pos rfl]
        exact (ih para hrest hpara.2).2 hpara.1
      · intro h
        rw [chunkLoop_cons]
        by_cases hcond : cur.length + para.length > n ∧ cur ≠ []
        · rw [if_pos hcond]
          have hne := chunkLoop_ne_nil n rest para hpara.1
          rw [joinPars_cons_ne (pyStrip cur) hne, hcs,
            (ih para hrest hpara.2).2 hpara.1,
            joinPars_cons_ne cur (by simp)]
        · rw [if_neg hcond, if_neg h]
          have hclean := pyStrip_append_sep h hcs hpara.1 hpara.2
          rw [(ih (cur ++ '\n' :: '\n' :: para) hrest hclean).2
            (fun hc => h (List.append_eq_nil.mp hc).1)]
          cases rest with
          | nil => simp [joinPars]
          | cons q qs =>
              rw [joinPars_cons_ne _ (by simp),
                joinPars_cons_ne cur (by simp),
                joinPars_cons_ne para (by simp)]
              simp

lemma chunkLoop_bound (n : Nat) (allParas : List (List Char)) :
    ∀ (paras : List (List Char)) (cur : List Char),
      (∀ p ∈ paras, p ∈ allParas) →
      (cur = [] ∨ cur ∈ allParas ∨ cur.length ≤ n + 2) →
      ∀ chunk ∈ chunkLoop n paras cur,
        chunk.length ≤ n + 2 ∨ ∃ p ∈ allParas, chunk = pyStrip p := by
  intro paras
  induction paras with
  | nil =>
      intro cur _ hcur chunk hc
      by_cases hne : cur = []
      · rw [chunkLoop_nil, if_neg (by simp [hne])] at hc
        simp at hc
      · rw [chunkLoop_nil, if_pos hne] at hc
        rcases List.mem_singleton.mp hc with rfl
        rcases hcur with rfl | hmem | hlen
        · exact absurd rfl hne
        · exact Or.inr ⟨cur, hmem, rfl⟩
        · exact Or.inl (le_trans (pyStrip_length_le cur) hlen)
  | cons para rest ih =>
      intro cur hsub hcur chunk hc
      have hpmem : para ∈ allParas := hsub para (List.mem_cons_self _ _)
      have hsub' : ∀ p ∈ rest, p ∈ allParas :=
        fun p hp => hsub p (List.mem_cons_of_mem _ hp)
      rw [chunkLoop_cons] at hc
      by_cases hcond : cur.length + para.length > n ∧ cur ≠ []
      · rw [if_pos hcond] at hc
        rcases List.mem_cons.mp hc with rfl | htail
        · rcases hcur with rfl | hmem | hlen
          · exact absurd rfl hcond.2
          · exact Or.inr ⟨cur, hmem, rfl⟩
          · exact Or.inl (le_trans (pyStrip_length_le cur) hlen)
        · exact ih para hsub' (Or.inr (Or.inl hpmem)) chunk htail
      · rw [if_neg hcond] at hc
        by_cases hce : cur = []
        · rw [if_pos hce] at hc
          exact ih para hsub' (Or.inr (Or.inl hpmem)) chunk hc
        · rw [if_neg hce] at hc
          have hlen2 : (cur ++ '\n' :: '\n' :: para).length ≤ n + 2 := by
            have hle : ¬ (cur.length + para.length > n) :=
              fun hgt => hcond ⟨hgt, hce⟩
            simp only [List.length_append, List.length_cons]
            omega
          exact ih _ hsub' (Or.inr (Or.inr hlen2)) chunk hc

end PRReviewer

namespace PRReviewer

/-- Counterexample for C4: three concrete failures of the claim as
stated.  (1) For content `" a"` — a single paragraph of length 2, far
below `maxChars = 10` — the produced chunk is stripped, so joining the
chunks yields `"a"`, not the original content.  (2) For content `"\n\n"`
— two empty paragraphs, none over-length — the chunks are empty and the
join is `""`, not `"\n\n"`.  (3) For `maxChars = 4` and content
`"ab\n\ncd"` — two paragraphs of length 2 each — the single produced
chunk has length 6 > 4 yet is not a single over-length paragraph (the
size check ignores the two separator characters added on append). -/
theorem chunk_document_claim_cex :
    (splitPars " a".data = [" a".data]
      ∧ (" a".data).length ≤ 10
      ∧ joinPars (chunk_document " a".data 10) ≠ " a".data)
    ∧ (splitPars "\n\n".data = ["".data, "".data]
      ∧ joinPars (chunk_document "\n\n".data 10) ≠ "\n\n".data)
    ∧ (chunk_document "ab\n\ncd".data 4 = ["ab\n\ncd".data]
      ∧ ("ab\n\ncd".data).length > 4
      ∧ splitPars "ab\n\ncd".data = ["ab".data, "cd".data]
      ∧ ("ab".data).length ≤ 4 ∧ ("cd".data).length ≤ 4
      ∧ "ab\n\ncd".data ∉ (splitPars "ab\n\ncd".data).map pyStrip) := by
  decide

/-- C4 (amended): for content whose blank-line-separated paragraphs are
all non-empty and unchanged by stripping (no leading or trailing
whitespace), concatenating the chunks of `chunk_document` in order,
joined by the paragraph separator, reproduces the original content; and
every produced chunk either has length at most `maxChars + 2` (the size
check does not count the two separator characters of the final append)
or is the stripped form of a single (hence over-length) paragraph of the
content, which is kept whole. -/
theorem chunk_document_round_trip (content : List Char) (n : Nat)
    (hclean : ∀ p ∈ splitPars content, p ≠ [] ∧ pyStrip p = p) :
    joinPars (chunk_document content n) = content
    ∧ ∀ chunk ∈ chunk_document content n,
        chunk.length ≤ n + 2 ∨ ∃ p ∈ splitPars content, chunk = pyStrip p := by
  constructor
  · have h := (chunkLoop_join n (splitPars content) [] hclean rfl).1 rfl
    simp only [chunk_document]
    rw [h, joinPars_splitPars]
  · intro chunk hc
    simp only [chunk_document] at hc
    exact chunkLoop_bound n (splitPars content) (splitPars content) []
      (fun _ hp => hp) (Or.inl rfl) chunk hc

/-- Witness for C4 (amended): a concrete two-paragraph content with clean
paragraphs, chunked at `maxChars = 8`, reproduces itself when the chunks
are joined. -/
theorem chunk_document_round_trip_witness :
    joinPars (chunk_document "para one\n\npara two".data 8)
      = "para one\n\npara two".data :=
  (chunk_document_round_trip "para one\n\npara two".data 8 (by decide)).1

end PRReviewer
